import Mathlib

namespace HelpMiso

/-! Text utilities shared by the embedded scraper functions.  Text is a list
of characters; Python string operations are modelled on `List Char`. -/

/-- Characters treated as whitespace: models Python regex `\s` and `str.strip`
on the whitespace characters occurring in the scraped Japanese text
(ASCII whitespace, NBSP and the ideographic space). -/
def isWs (c : Char) : Bool :=
  c == ' ' || c == '\t' || c == '\n' || c == '\r' || c == '\x0b' || c == '\x0c' ||
  c == ' ' || c == '　'

/-- Decimal digits as matched by Python `\d` on this data: ASCII and full-width. -/
def pyDigit (c : Char) : Bool :=
  c.isDigit || (decide (65296 ≤ c.toNat) && decide (c.toNat ≤ 65305))

/-- Numeric value of a decimal digit character (ASCII or full-width). -/
def digitVal (c : Char) : Nat := if c.isDigit then c.toNat - 48 else c.toNat - 65296

/-- Value of a digit string read in base 10. -/
def digitsVal (l : List Char) : Nat := l.foldl (fun a c => a * 10 + digitVal c) 0

/-- Does the pattern `p` occur at the head of the text? -/
def matchPre : List Char → List Char → Bool
  | [], _ => true
  | _ :: _, [] => false
  | p :: ps, t :: ts => p == t && matchPre ps ts

/-- Python substring containment `p in t`. -/
def hasSub : List Char → List Char → Bool
  | [], p => p.isEmpty
  | c :: ts, p => matchPre p (c :: ts) || hasSub ts p

/-- Substring containment on `String`, as used with keyword configuration. -/
def hasSubS (t p : String) : Bool := hasSub t.data p.data

/-- Python `str.strip()`. -/
def pyStrip (t : List Char) : List Char :=
  ((t.dropWhile isWs).reverse.dropWhile isWs).reverse

/-! The amount parser `parse_amount` (scraper.py lines 47-72): three regex
passes over the text, each match converted to an integer number of yen, the
maximum returned.  The regex passes are embedded as explicit scanners with
`re.finditer` semantics: leftmost matches, non-overlapping, scanning resumes
after the end of each match. -/

/-- Characters of the regex class `[\d,.]` used in the unit-amount patterns. -/
def isNumChar (c : Char) : Bool := pyDigit c || c == ',' || c == '.'

/-- One attempt of the regex `(\d[\d,.]*)\s*U\s*円` at the head of `t` (U the
unit character 億 or 万): returns the captured number-run and the text after
the whole match.  The greedy `[\d,.]*` needs no backtracking because no
character of its class can begin `\s*U`. -/
def unitMatchAt (unit : Char) (t : List Char) : Option (List Char × List Char) :=
  match t with
  | [] => none
  | c :: _ =>
    if pyDigit c then
      let run := t.takeWhile isNumChar
      match (t.dropWhile isNumChar).dropWhile isWs with
      | u :: r2 =>
        if u == unit then
          match r2.dropWhile isWs with
          | y :: r3 => if y == '円' then some (run, r3) else none
          | [] => none
        else none
      | [] => none
    else none

/-- `re.finditer` for one unit pattern: the `skip` counter carries how many
characters remain inside the previous match, so matches never overlap. -/
def scanUnitAux (unit : Char) : Nat → List Char → List (List Char)
  | _, [] => []
  | skip + 1, _ :: ts => scanUnitAux unit skip ts
  | 0, c :: ts =>
    match unitMatchAt unit (c :: ts) with
    | some p => p.1 :: scanUnitAux unit (ts.length - p.2.length) ts
    | none => scanUnitAux unit 0 ts

/-- All captures of `(\d[\d,.]*)\s*unit\s*円` over the text, leftmost first. -/
def scanUnit (unit : Char) (t : List Char) : List (List Char) := scanUnitAux unit 0 t

/-- Consume the maximal run of `(?:,\d{3})` groups; returns the consumed text
and the rest. -/
def commaGroups : List Char → List Char × List Char
  | x :: a :: b :: c :: rest =>
    if x == ',' && pyDigit a && pyDigit b && pyDigit c then
      let p := commaGroups rest
      (x :: a :: b :: c :: p.1, p.2)
    else ([], x :: a :: b :: c :: rest)
  | t => ([], t)

/-- One attempt of `(\d{1,3}(?:,\d{3})+)\s*円` at the head of `t` with the
leading `\d{1,3}` taking exactly `dlen` digits.  Giving back comma groups can
never help (after fewer groups the next character is a comma, which neither
`\s*` nor `円` accepts), so only the maximal group run is tried. -/
def commaTryLen (dlen : Nat) (t : List Char) : Option (List Char × List Char) :=
  let ds := t.take dlen
  if ds.length == dlen && ds.all pyDigit then
    let p := commaGroups (t.drop dlen)
    if p.1.isEmpty then none
    else
      match p.2.dropWhile isWs with
      | y :: r3 => if y == '円' then some (ds ++ p.1, r3) else none
      | [] => none
  else none

/-- The regex `(\d{1,3}(?:,\d{3})+)\s*円` at the head of `t`: the greedy
`\d{1,3}` backtracks from three digits down to one. -/
def commaMatchAt (t : List Char) : Option (List Char × List Char) :=
  match commaTryLen 3 t with
  | some p => some p
  | none =>
    match commaTryLen 2 t with
    | some p => some p
    | none => commaTryLen 1 t

/-- `re.finditer` for the comma-grouped pattern. -/
def scanCommaAux : Nat → List Char → List (List Char)
  | _, [] => []
  | skip + 1, _ :: ts => scanCommaAux skip ts
  | 0, c :: ts =>
    match commaMatchAt (c :: ts) with
    | some p => p.1 :: scanCommaAux (ts.length - p.2.length) ts
    | none => scanCommaAux 0 ts

/-- All captures of `(\d{1,3}(?:,\d{3})+)\s*円` over the text. -/
def scanComma (t : List Char) : List (List Char) := scanCommaAux 0 t

/-- `int(float(run.replace(",", "")) * scale)` in exact arithmetic: commas are
dropped, at most one decimal point is accepted (two or more make `float` raise
`ValueError`, so the match is skipped), and the scaled value is truncated. -/
def unitVal (run : List Char) (scale : Nat) : Option Nat :=
  let s := run.filter (fun c => !(c == ','))
  if 2 ≤ s.count '.' then none
  else
    let ip := s.takeWhile (fun c => !(c == '.'))
    let fp := (s.dropWhile (fun c => !(c == '.'))).drop 1
    some (digitsVal ip * scale + digitsVal fp * scale / 10 ^ fp.length)

/-- `int(cap.replace(",", ""))` for a comma-grouped digit capture. -/
def commaVal (cap : List Char) : Nat := digitsVal (cap.filter (fun c => !(c == ',')))

/-- All candidate amounts collected by `parse_amount`'s three regex passes, in
the order the source appends them: 億-scale, then 万-scale, then direct. -/
def amountCandidates (t : List Char) : List Nat :=
  ((scanUnit '億' t).filterMap (fun r => unitVal r 100000000)) ++
  ((scanUnit '万' t).filterMap (fun r => unitVal r 10000)) ++
  ((scanComma t).map commaVal)

/-- `parse_amount` (scraper.py 47-72): the maximum candidate, or `none` when
no pattern matched. -/
def parse_amount (t : List Char) : Option Nat :=
  match amountCandidates t with
  | [] => none
  | x :: xs => some (xs.foldl max x)

/-! The region checker `check_region` (scraper.py 89-108).  Its four scope
patterns are `re.search`es: the first pattern (in the source's list order)
that matches anywhere wins, at its leftmost match position. -/

/-- The lazy capture `(.+?)(?:\n|$)` with a preceding greedy `\s*`, starting
from offset `w` of `rest` and backtracking the whitespace run downward: the
first offset whose character exists and is not a newline yields the capture
running to the next newline or to the end. -/
def scopeNlGo (rest : List Char) : Nat → Option (List Char)
  | 0 =>
    match rest with
    | c :: _ => if c == '\n' then none
                else some (rest.takeWhile (fun x => !(x == '\n')))
    | [] => none
  | w + 1 =>
    match (rest.drop (w + 1)).head? with
    | some c => if c == '\n' then scopeNlGo rest w
                else some ((rest.drop (w + 1)).takeWhile (fun x => !(x == '\n')))
    | none => scopeNlGo rest w

/-- `\s*(.+?)(?:\n|$)` applied at the head of `rest`. -/
def scopeNl (rest : List Char) : Option (List Char) :=
  scopeNlGo rest (rest.takeWhile isWs).length

/-- The lazy capture `(.+?)` up to the first occurrence of one of two stop
literals: the shortest nonempty newline-free run followed by a stop. -/
def lazyUntilGo (sA sB : List Char) (acc : List Char) : List Char → Option (List Char)
  | [] => none
  | c :: rest =>
    if c == '\n' then none
    else if matchPre sA rest || matchPre sB rest then some (acc ++ [c])
    else lazyUntilGo sA sB (acc ++ [c]) rest

/-- `\s*(.+?)(?:sA|sB)` at the head of `rest`, the `\s*` greedy with
backtracking from offset `w` downward. -/
def scopeStopGo (sA sB : List Char) (rest : List Char) : Nat → Option (List Char)
  | 0 => lazyUntilGo sA sB [] rest
  | w + 1 =>
    match lazyUntilGo sA sB [] (rest.drop (w + 1)) with
    | some cap => some cap
    | none => scopeStopGo sA sB rest w

/-- `\s*(.+?)(?:sA|sB)` applied at the head of `rest`. -/
def scopeStop (sA sB : List Char) (rest : List Char) : Option (List Char) :=
  scopeStopGo sA sB rest (rest.takeWhile isWs).length

/-- One attempt of `label[：:]` at the head of `t`: the text after the colon. -/
def labelColonAt (label : List Char) (t : List Char) : Option (List Char) :=
  if matchPre label t then
    match t.drop label.length with
    | k :: r2 => if k == '：' || k == ':' then some r2 else none
    | [] => none
  else none

/-- `re.search` for `label[：:]\s*(.+?)(?:\n|$)`: tries every start position
left to right. -/
def searchLabelNl (label : List Char) : List Char → Option (List Char)
  | [] => none
  | c :: ts =>
    match labelColonAt label (c :: ts) with
    | some r2 =>
      match scopeNl r2 with
      | some cap => some cap
      | none => searchLabelNl label ts
    | none => searchLabelNl label ts

/-- `re.search` for `label[：:]\s*(.+?)(?:sA|sB)`. -/
def searchLabelStop (label sA sB : List Char) : List Char → Option (List Char)
  | [] => none
  | c :: ts =>
    match labelColonAt label (c :: ts) with
    | some r2 =>
      match scopeStop sA sB r2 with
      | some cap => some cap
      | none => searchLabelStop label sA sB ts
    | none => searchLabelStop label sA sB ts

/-- `m.group(1).strip()[:60]` applied to a scope capture. -/
def regionText (cap : List Char) : String := String.mk ((pyStrip cap).take 60)

/-- `check_region` (scraper.py 89-108): a configured exclusion substring (in
configuration order) makes the text ineligible with that substring as the
description; otherwise the four scope-declaration patterns are searched in
order; otherwise eligible with 指定なし. -/
def check_region (regionExcl : List String) (text : String) : Bool × String :=
  match regionExcl.find? (fun p => hasSubS text p) with
  | some p => (false, p)
  | none =>
    match searchLabelNl "対象地域".data text.data with
    | some cap => (true, regionText cap)
    | none =>
      match searchLabelNl "活動地域".data text.data with
      | some cap => (true, regionText cap)
      | none =>
        match searchLabelNl "対象エリア".data text.data with
        | some cap => (true, regionText cap)
        | none =>
          match searchLabelStop "助成対象".data "に所在".data "に拠点".data text.data with
          | some cap => (true, regionText cap)
          | none => (true, "指定なし")

/-! The record identity `make_id` (scraper.py 136-138):
`source + "_" + hashlib.md5(url.encode()).hexdigest()[:10]`.  MD5 is embedded
in full over byte lists, machine words as naturals reduced mod 2^32. -/

/-- UTF-8 encoding of one code point. -/
def utf8Char (n : Nat) : List Nat :=
  if n < 128 then [n]
  else if n < 2048 then [192 + n / 64, 128 + n % 64]
  else if n < 65536 then [224 + n / 4096, 128 + n / 64 % 64, 128 + n % 64]
  else [240 + n / 262144, 128 + n / 4096 % 64, 128 + n / 64 % 64, 128 + n % 64]

/-- `str.encode()`: the UTF-8 bytes of a string. -/
def utf8Bytes (s : String) : List Nat :=
  (s.data.map (fun c => utf8Char c.toNat)).flatten

/-- Addition of 32-bit machine words. -/
def addw (a b : Nat) : Nat := (a + b) % 4294967296

/-- Bitwise complement of a 32-bit word. -/
def notw (a : Nat) : Nat := Nat.xor a 4294967295

/-- Left rotation of a 32-bit word by `s` places. -/
def rotl (x s : Nat) : Nat := (x * 2 ^ s + x / 2 ^ (32 - s)) % 4294967296

/-- The MD5 sine-derived round constants. -/
def md5K : List Nat :=
  [3614090360, 3905402710, 606105819, 3250441966, 4118548399, 1200080426,
   2821735955, 4249261313, 1770035416, 2336552879, 4294925233, 2304563134,
   1804603682, 4254626195, 2792965006, 1236535329, 4129170786, 3225465664,
   643717713, 3921069994, 3593408605, 38016083, 3634488961, 3889429448,
   568446438, 3275163606, 4107603335, 1163531501, 2850285829, 4243563512,
   1735328473, 2368359562, 4294588738, 2272392833, 1839030562, 4259657740,
   2763975236, 1272893353, 4139469664, 3200236656, 681279174, 3936430074,
   3572445317, 76029189, 3654602809, 3873151461, 530742520, 3299628645,
   4096336452, 1126891415, 2878612391, 4237533241, 1700485571, 2399980690,
   4293915773, 2240044497, 1873313359, 4264355552, 2734768916, 1309151649,
   4149444226, 3174756917, 718787259, 3951481745]

/-- The MD5 per-round left-rotation amounts. -/
def md5S : List Nat :=
  [7, 12, 17, 22, 7, 12, 17, 22, 7, 12, 17, 22, 7, 12, 17, 22,
   5, 9, 14, 20, 5, 9, 14, 20, 5, 9, 14, 20, 5, 9, 14, 20,
   4, 11, 16, 23, 4, 11, 16, 23, 4, 11, 16, 23, 4, 11, 16, 23,
   6, 10, 15, 21, 6, 10, 15, 21, 6, 10, 15, 21, 6, 10, 15, 21]

/-- Little-endian bytes of a natural, `k` bytes. -/
def leBytes (k : Nat) (n : Nat) : List Nat :=
  match k with
  | 0 => []
  | k + 1 => n % 256 :: leBytes k (n / 256)

/-- MD5 padding: 0x80, zeros to 56 mod 64, then the 64-bit LE bit length. -/
def md5Pad (msg : List Nat) : List Nat :=
  msg ++ [128] ++ List.replicate ((64 + 56 - (msg.length + 1) % 64) % 64) 0
      ++ leBytes 8 (msg.length * 8)

/-- The `g`-th little-endian 32-bit word of a 64-byte chunk. -/
def leWord (chunk : List Nat) (g : Nat) : Nat :=
  chunk.getD (4 * g) 0 + 256 * chunk.getD (4 * g + 1) 0 +
    65536 * chunk.getD (4 * g + 2) 0 + 16777216 * chunk.getD (4 * g + 3) 0

/-- The MD5 nonlinear function of round `i`. -/
def md5F (i b c d : Nat) : Nat :=
  if i < 16 then Nat.lor (Nat.land b c) (Nat.land (notw b) d)
  else if i < 32 then Nat.lor (Nat.land b d) (Nat.land c (notw d))
  else if i < 48 then Nat.xor b (Nat.xor c d)
  else Nat.xor c (Nat.lor b (notw d))

/-- The message-word index used in round `i`. -/
def md5G (i : Nat) : Nat :=
  if i < 16 then i
  else if i < 32 then (5 * i + 1) % 16
  else if i < 48 then (3 * i + 5) % 16
  else (7 * i) % 16

/-- One MD5 round on the running state (a, b, c, d). -/
def md5Step (chunk : List Nat) (st : Nat × Nat × Nat × Nat) (i : Nat) :
    Nat × Nat × Nat × Nat :=
  let f := addw (addw (md5F i st.2.1 st.2.2.1 st.2.2.2) st.1)
    (addw (md5K.getD i 0) (leWord chunk (md5G i)))
  (st.2.2.2, addw st.2.1 (rotl f (md5S.getD i 0)), st.2.1, st.2.2.1)

/-- Process one 64-byte chunk: 64 rounds, then add into the state. -/
def md5Chunk (st : Nat × Nat × Nat × Nat) (chunk : List Nat) :
    Nat × Nat × Nat × Nat :=
  let r := (List.range 64).foldl (md5Step chunk) st
  (addw st.1 r.1, addw st.2.1 r.2.1, addw st.2.2.1 r.2.2.1, addw st.2.2.2 r.2.2.2)

/-- Process the padded message `n` chunks of 64 bytes at a time.  The padded
message's length is a multiple of 64, so `n = length / 64` consumes it all. -/
def md5Blocks : Nat → List Nat → (Nat × Nat × Nat × Nat) → Nat × Nat × Nat × Nat
  | 0, _, st => st
  | n + 1, bytes, st => md5Blocks n (bytes.drop 64) (md5Chunk st (bytes.take 64))

/-- The 16-byte MD5 digest of a byte list. -/
def md5Digest (msg : List Nat) : List Nat :=
  let padded := md5Pad msg
  let st := md5Blocks (padded.length / 64) padded
    (1732584193, 4023233417, 2562383102, 271733878)
  leBytes 4 st.1 ++ leBytes 4 st.2.1 ++ leBytes 4 st.2.2.1 ++ leBytes 4 st.2.2.2

/-- Lower-case hex digit. -/
def hexChar (n : Nat) : Char := if n < 10 then Char.ofNat (48 + n) else Char.ofNat (87 + n)

/-- `hashlib.md5(msg).hexdigest()`. -/
def md5HexDigest (msg : List Nat) : List Char :=
  ((md5Digest msg).map (fun b => [hexChar (b / 16), hexChar (b % 16)])).flatten

/-- `make_id` (scraper.py 136-138). -/
def make_id (source url : String) : String :=
  source ++ "_" ++ String.mk ((md5HexDigest (utf8Bytes url)).take 10)

/-- The status assignment of `_scrape_canpan_detail` (scraper.py 264-270) as a
function of the whole extracted page text: the field starts 要確認 and the
keyword chain overwrites it. -/
def detail_status (text : String) : String :=
  if hasSubS text "募集中" then "募集中"
  else if hasSubS text "募集予定" then "募集予定"
  else if hasSubS text "募集終了" then "募集終了"
  else "要確認"

/-! The data model and the main pipeline `run` (scraper.py 435-517). -/

/-- Calendar date as the scraper handles it. -/
structure DateYMD where
  year : Nat
  month : Nat
  day : Nat
deriving DecidableEq, Repr, Inhabited

/-- `datetime.date` strict order: lexicographic on (year, month, day). -/
def dateLt (a b : DateYMD) : Bool :=
  Nat.blt a.year b.year ||
  (a.year == b.year && (Nat.blt a.month b.month ||
    (a.month == b.month && Nat.blt a.day b.day)))

/-- The policy configuration drawn from config.py (not part of the staged
sources): keyword sets, exclusion patterns, thresholds.  All pipeline results
are parametric in it. -/
structure Config where
  highKw : List String
  lowKw : List String
  exclKw : List String
  regionExcl : List String
  scoreThreshold : Nat
  amountThreshold : Nat
deriving Repr

/-- One scraped record as the extractors emit it, before the run stamps the
discovery date.  `deadline` holds the parsed `YYYY-MM-DD` value: the
extractors store either a canonically formatted date string or the empty
string, and the filter's `strptime`, whose `ValueError` branch keeps the
record, accepts exactly the parseable dates, so empty/unparseable is `none`. -/
structure RawGrant where
  id : String
  name : String
  url : String
  source : String
  organization : String
  summary : String
  categories : String
  deadline : Option DateYMD
  status : String
  amount_text : String
  amount_value : Option Nat
  full_text : String
deriving DecidableEq, Repr

/-- A scraped record with its `found_date`, as the extractors hand it to the
aggregation step: every extractor sets `found_date` to the current date. -/
structure FetchedGrant where
  id : String
  name : String
  url : String
  source : String
  organization : String
  summary : String
  categories : String
  deadline : Option DateYMD
  status : String
  amount_text : String
  amount_value : Option Nat
  full_text : String
  found_date : DateYMD
deriving DecidableEq, Repr

/-- The extractors' `found_date = datetime.now().strftime("%Y-%m-%d")`. -/
def stamp (today : DateYMD) (r : RawGrant) : FetchedGrant :=
  { id := r.id, name := r.name, url := r.url, source := r.source,
    organization := r.organization, summary := r.summary,
    categories := r.categories, deadline := r.deadline, status := r.status,
    amount_text := r.amount_text, amount_value := r.amount_value,
    full_text := r.full_text, found_date := today }

/-- A record as persisted in the catalog: annotated with region, score,
matches and the new-since-last-run flag, `full_text` stripped. -/
structure StoredGrant where
  id : String
  name : String
  url : String
  source : String
  organization : String
  summary : String
  categories : String
  deadline : Option DateYMD
  status : String
  amount_text : String
  amount_value : Option Nat
  found_date : DateYMD
  region : String
  relevance_score : Nat
  matched_keywords : List String
  is_new : Bool
deriving DecidableEq, Repr, Inhabited

/-- `score_grant` (scraper.py 111-133): keyword-weighted score over the
concatenation of name, summary, categories and full text. -/
def score_grant (high low : List String) (g : FetchedGrant) : Nat × List String :=
  let text := g.name ++ " " ++ g.summary ++ " " ++ g.categories ++ " " ++ g.full_text
  let p := high.foldl
    (fun (a : Nat × List String) kw =>
      if hasSubS text kw then (a.1 + 2, a.2 ++ [kw]) else a) (0, [])
  low.foldl
    (fun (a : Nat × List String) kw =>
      if hasSubS text kw then (a.1 + 1, a.2 ++ [kw]) else a) p

/-- The URL-seen loop of `run` (scraper.py 459-464): keep the first record per
exact URL string. -/
def dedupGo : List String → List FetchedGrant → List FetchedGrant
  | _, [] => []
  | seen, g :: rest =>
    if seen.contains g.url then dedupGo seen rest
    else g :: dedupGo (g.url :: seen) rest

/-- Global URL deduplication over the aggregated collection. -/
def dedupByUrl (l : List FetchedGrant) : List FetchedGrant := dedupGo [] l

/-- The scoring/filter body of `run` (scraper.py 468-503) for one record:
`none` when a `continue` drops it, otherwise the annotated stored record.
The amount test mirrors Python truthiness: `grant.get("amount_value") and
grant["amount_value"] < AMOUNT_THRESHOLD`. -/
def processGrant (cfg : Config) (today : DateYMD) (existingIds : List String)
    (g : FetchedGrant) : Option StoredGrant :=
  let sm := score_grant cfg.highKw cfg.lowKw g
  let rg := check_region cfg.regionExcl g.full_text
  if sm.1 < cfg.scoreThreshold then none
  else if rg.1 = false then none
  else if cfg.exclKw.any (fun kw => hasSubS (g.name ++ g.categories) kw) then none
  else if (match g.amount_value with
           | some v => !(v == 0) && decide (v < cfg.amountThreshold)
           | none => false) then none
  else if (match g.deadline with
           | some d => dateLt d today
           | none => false) then none
  else
    some
      { id := g.id, name := g.name, url := g.url, source := g.source,
        organization := g.organization, summary := g.summary,
        categories := g.categories, deadline := g.deadline, status := g.status,
        amount_text := g.amount_text, amount_value := g.amount_value,
        found_date := g.found_date, region := rg.2, relevance_score := sm.1,
        matched_keywords := sm.2, is_new := !(existingIds.contains g.id) }

/-- Stable insertion for the descending score sort: a record goes after every
already-placed record of greater-or-equal score. -/
def insertByScore (g : StoredGrant) : List StoredGrant → List StoredGrant
  | [] => [g]
  | h :: t =>
    if Nat.blt h.relevance_score g.relevance_score then g :: h :: t
    else h :: insertByScore g t

/-- `filtered.sort(key=relevance_score, reverse=True)`: Python's sort is
stable, so any stable descending sort is extensionally the same list. -/
def sortByScoreDesc (l : List StoredGrant) : List StoredGrant :=
  l.foldl (fun acc g => insertByScore g acc) []

/-- The persisted catalog document. -/
structure Catalog where
  last_updated : Option String
  grants : List StoredGrant
deriving DecidableEq, Repr

/-- The fallback document of `load_existing`. -/
def emptyCatalog : Catalog := { last_updated := none, grants := [] }

/-- What reading the persisted catalog file can yield: absent file, an
IOError while reading, a JSONDecodeError while parsing, or a parsed catalog
document. -/
inductive LoadOutcome where
  | absent
  | unreadable
  | malformed
  | parsed (doc : Catalog)

/-- `load_existing` (scraper.py 414-423): every failure falls back to the
empty catalog; only a successful parse is returned as read. -/
def load_existing : LoadOutcome → Catalog
  | .parsed doc => doc
  | _ => emptyCatalog

/-- `run` (scraper.py 435-517) with the fetch capability abstracted: the
`scraped` list stands for the deterministic concatenated output of the three
extractors (CANPAN, then NPOWEB RSS, then JFC) before date stamping, `today`
for the current date and `ts` for the `last_updated` timestamp string. -/
def run (cfg : Config) (today : DateYMD) (ts : String) (scraped : List RawGrant)
    (existing : Catalog) : Catalog :=
  let existingIds := existing.grants.map (fun g => g.id)
  let allGrants := scraped.map (stamp today)
  let uniq := dedupByUrl allGrants
  let filtered := uniq.filterMap (processGrant cfg today existingIds)
  { last_updated := some ts, grants := sortByScoreDesc filtered }

/-- `apply_exclude_filter` (app.py 55-62). -/
def apply_exclude_filter (exclKw : List String) (grants : List StoredGrant) :
    List StoredGrant :=
  grants.filter (fun g => !(exclKw.any (fun kw => hasSubS (g.name ++ g.categories) kw)))

/-- The grant list the dashboard works from (app.py 116-121): the stored
grants with the exclude-keyword filter re-applied in real time. -/
def dashboard_grants (exclKw : List String) (data : Catalog) : List StoredGrant :=
  apply_exclude_filter exclKw data.grants

/-- The filter's exclusion condition as the specification words it.  This is
a refinement-comparison definition, deliberately written from the spec's
sentence rather than from the code: score below threshold, or region
ineligible, or exclude keyword in name+categories, or amount known and below
the floor, or deadline known and strictly before the current date. -/
def specExcluded (cfg : Config) (today : DateYMD) (g : FetchedGrant) : Bool :=
  decide ((score_grant cfg.highKw cfg.lowKw g).1 < cfg.scoreThreshold) ||
  !(check_region cfg.regionExcl g.full_text).1 ||
  cfg.exclKw.any (fun kw => hasSubS (g.name ++ g.categories) kw) ||
  (match g.amount_value with
   | some v => decide (v < cfg.amountThreshold)
   | none => false) ||
  (match g.deadline with
   | some d => dateLt d today
   | none => false)

/-! Concrete inputs used by the counterexample and witness statements. -/

/-- A minimal policy configuration under which everything relevant passes. -/
def simpleCfg : Config :=
  { highKw := ["助成"], lowKw := [], exclKw := [], regionExcl := [],
    scoreThreshold := 0, amountThreshold := 0 }

/-- A minimal scraped record. -/
def simpleRaw : RawGrant :=
  { id := "canpan_215fe0fdd1", name := "助成A",
    url := "https://fields.canpan.info/grant/detail/123", source := "CANPAN",
    organization := "", summary := "", categories := "", deadline := none,
    status := "募集中", amount_text := "", amount_value := none,
    full_text := "助成" }

/-- First run date of the two-run scenarios. -/
def dayOne : DateYMD := ⟨2025, 10, 12⟩

/-- Second run date of the two-run scenarios. -/
def dayTwo : DateYMD := ⟨2025, 10, 13⟩

/-! Theorems settling the claims, with their supporting lemmas. -/

theorem le_foldl_max (xs : List Nat) (a : Nat) : a ≤ xs.foldl max a := by
  induction xs generalizing a with
  | nil => exact le_refl a
  | cons x xs ih => exact le_trans (le_max_left a x) (ih (max a x))

theorem foldl_max_mem (xs : List Nat) (a : Nat) :
    xs.foldl max a = a ∨ xs.foldl max a ∈ xs := by
  induction xs generalizing a with
  | nil => exact Or.inl rfl
  | cons x xs ih =>
    rw [List.foldl_cons]
    rcases ih (max a x) with h | h
    · rcases max_choice a x with h2 | h2
      · left; rw [h, h2]
      · right; rw [h, h2]; exact List.mem_cons_self x xs
    · right; exact List.mem_cons_of_mem x h

theorem foldl_max_ge (xs : List Nat) (a y : Nat) (hy : y ∈ xs) :
    y ≤ xs.foldl max a := by
  induction xs generalizing a with
  | nil => cases hy
  | cons x xs ih =>
    rcases List.mem_cons.mp hy with rfl | h
    · exact le_trans (le_max_right a y) (le_foldl_max xs (max a y))
    · exact ih (max a x) h

theorem parse_amount_eq_none (t : List Char) :
    parse_amount t = none ↔ amountCandidates t = [] := by
  unfold parse_amount
  rcases h : amountCandidates t with _ | ⟨x, xs⟩ <;> simp [h]

theorem parse_amount_eq_some (t : List Char) (v : Nat)
    (h : parse_amount t = some v) :
    v ∈ amountCandidates t ∧ ∀ w ∈ amountCandidates t, w ≤ v := by
  unfold parse_amount at h
  rcases hc : amountCandidates t with _ | ⟨x, xs⟩
  · rw [hc] at h; cases h
  · rw [hc] at h
    have hv : xs.foldl max x = v := by injection h
    constructor
    · rcases foldl_max_mem xs x with h2 | h2
      · rw [← hv, h2]; exact List.mem_cons_self x xs
      · rw [← hv]; exact List.mem_cons_of_mem x h2
    · intro w hw
      rcases List.mem_cons.mp hw with rfl | h2
      · rw [← hv]; exact le_foldl_max xs w
      · rw [← hv]; exact foldl_max_ge xs x w h2

/-- C3: the amount parser converts every match of its three numeric patterns
(億 scale, 万 scale, comma-grouped 円) to yen and returns the maximum over all
matches, `none` when nothing matches; the spec's literal examples hold. -/
theorem parse_amount_spec :
    parse_amount "助成金：1,500,000円".data = some 1500000 ∧
    parse_amount "上限200万円まで".data = some 2000000 ∧
    parse_amount "最大1.2億円".data = some 120000000 ∧
    parse_amount "この助成事業の詳細は追って連絡".data = none ∧
    ∀ t : List Char,
      (parse_amount t = none ↔ amountCandidates t = []) ∧
      ∀ v : Nat, parse_amount t = some v →
        v ∈ amountCandidates t ∧ ∀ w ∈ amountCandidates t, w ≤ v := by
  refine ⟨by decide, by decide, by decide, by decide, fun t => ⟨parse_amount_eq_none t, fun v h => parse_amount_eq_some t v h⟩⟩

/-- C10: the CANPAN detail status is decided by ordered precedence over the
page text — 募集中 over 募集予定 over 募集終了, with 要確認 exactly when none
occurs; a page containing both 募集中 and 募集終了 gets 募集中. -/
theorem detail_status_precedence :
    (∀ text : String,
      (hasSubS text "募集中" = true → detail_status text = "募集中") ∧
      (hasSubS text "募集中" = false → hasSubS text "募集予定" = true →
        detail_status text = "募集予定") ∧
      (hasSubS text "募集中" = false → hasSubS text "募集予定" = false →
        hasSubS text "募集終了" = true → detail_status text = "募集終了") ∧
      (detail_status text = "要確認" ↔
        hasSubS text "募集中" = false ∧ hasSubS text "募集予定" = false ∧
          hasSubS text "募集終了" = false)) ∧
    detail_status "本事業は現在募集中です（昨年度分は募集終了）" = "募集中" := by
  constructor
  · intro text
    unfold detail_status
    rcases h1 : hasSubS text "募集中" <;>
      rcases h2 : hasSubS text "募集予定" <;>
        rcases h3 : hasSubS text "募集終了" <;> simp
  · decide

/-- The concatenation the scorer searches:
`" ".join([name, summary, categories, full_text])`. -/
def scoreText (g : FetchedGrant) : String :=
  g.name ++ " " ++ g.summary ++ " " ++ g.categories ++ " " ++ g.full_text

theorem score_foldl (w : Nat) (text : String) (kws : List String)
    (a : Nat × List String) :
    kws.foldl
        (fun (a : Nat × List String) kw =>
          if hasSubS text kw then (a.1 + w, a.2 ++ [kw]) else a) a
      = (a.1 + w * (kws.filter (fun kw => hasSubS text kw)).length,
         a.2 ++ kws.filter (fun kw => hasSubS text kw)) := by
  induction kws generalizing a with
  | nil => simp
  | cons k ks ih =>
    rcases h : hasSubS text k with _ | _
    · simp only [List.foldl_cons, List.filter_cons, h, if_false, ih,
        Bool.false_eq_true, Prod.mk.injEq]
    · simp only [List.foldl_cons, List.filter_cons, h, if_true, ih,
        List.length_cons, Prod.mk.injEq]
      constructor
      · ring
      · simp

/-- C5: the scorer adds 2 per high-priority keyword and 1 per low-priority
keyword contained in the concatenated text, each keyword once regardless of
occurrence count; a text matching nothing scores 0; the matched list is the
matching high-priority keywords in set order followed by the matching
low-priority keywords in set order. -/
theorem score_grant_spec (high low : List String) (g : FetchedGrant) :
    (score_grant high low g).1
        = 2 * (high.filter (fun kw => hasSubS (scoreText g) kw)).length
          + (low.filter (fun kw => hasSubS (scoreText g) kw)).length ∧
    (score_grant high low g).2
        = high.filter (fun kw => hasSubS (scoreText g) kw)
          ++ low.filter (fun kw => hasSubS (scoreText g) kw) ∧
    ((∀ kw ∈ high, hasSubS (scoreText g) kw = false) →
     (∀ kw ∈ low, hasSubS (scoreText g) kw = false) →
       (score_grant high low g).1 = 0) := by
  have hmain :
      score_grant high low g
        = (2 * (high.filter (fun kw => hasSubS (scoreText g) kw)).length
            + (low.filter (fun kw => hasSubS (scoreText g) kw)).length,
           high.filter (fun kw => hasSubS (scoreText g) kw)
            ++ low.filter (fun kw => hasSubS (scoreText g) kw)) := by
    show
      (low.foldl
        (fun (a : Nat × List String) kw =>
          if hasSubS (scoreText g) kw then (a.1 + 1, a.2 ++ [kw]) else a)
        (high.foldl
          (fun (a : Nat × List String) kw =>
            if hasSubS (scoreText g) kw then (a.1 + 2, a.2 ++ [kw]) else a)
          (0, []))) = _
    rw [score_foldl 2 (scoreText g) high (0, []),
      score_foldl 1 (scoreText g) low _]
    simp [Nat.mul_comm]
  refine ⟨by rw [hmain], by rw [hmain], fun hh hl => ?_⟩
  rw [hmain]
  have h1 : high.filter (fun kw => hasSubS (scoreText g) kw) = [] :=
    List.filter_eq_nil_iff.mpr (by intro a ha; simp [hh a ha])
  have h2 : low.filter (fun kw => hasSubS (scoreText g) kw) = [] :=
    List.filter_eq_nil_iff.mpr (by intro a ha; simp [hl a ha])
  simp [h1, h2]

theorem leBytes_length (k n : Nat) : (leBytes k n).length = k := by
  induction k generalizing n with
  | zero => rfl
  | succ k ih => simp [leBytes, ih]

theorem md5HexDigest_length (msg : List Nat) : (md5HexDigest msg).length = 32 := by
  have hd : (md5Digest msg).length = 16 := by
    unfold md5Digest
    simp [leBytes_length]
  have hp : ∀ l : List Nat,
      ((l.map (fun b => [hexChar (b / 16), hexChar (b % 16)])).flatten).length
        = 2 * l.length := by
    intro l
    induction l with
    | nil => rfl
    | cons b t ih => simp [ih]; omega
  unfold md5HexDigest
  rw [hp, hd]

set_option maxRecDepth 100000 in
/-- C6: a record id is the source tag, an underscore, and the first ten hex
characters of the MD5 digest of the UTF-8 encoded URL — a function of those
two inputs alone; on a concrete URL it equals the real MD5 digest prefix. -/
theorem make_id_spec :
    (∀ source url : String,
      make_id source url
        = source ++ "_" ++ String.mk ((md5HexDigest (utf8Bytes url)).take 10) ∧
      ((md5HexDigest (utf8Bytes url)).take 10).length = 10) ∧
    make_id "canpan" "https://fields.canpan.info/grant/detail/123"
      = "canpan_215fe0fdd1" := by
  refine ⟨fun source url => ⟨rfl, ?_⟩, by decide⟩
  rw [List.length_take, md5HexDigest_length]
  decide

theorem mem_dedupGo (l : List FetchedGrant) (seen : List String) (g : FetchedGrant) :
    g ∈ dedupGo seen l ↔
      seen.contains g.url = false ∧ l.find? (fun x => x.url == g.url) = some g := by
  induction l generalizing seen with
  | nil => simp [dedupGo]
  | cons h t ih =>
    by_cases hs : seen.contains h.url = true
    · rw [dedupGo, if_pos hs]
      by_cases hu : h.url = g.url
      · rw [List.find?_cons_of_pos _ (by simp [hu])]
        have hg : seen.contains g.url = true := by rw [← hu]; exact hs
        rw [ih, hg]
        simp
      · rw [List.find?_cons_of_neg _ (by simp [hu])]
        exact ih seen
    · rw [Bool.not_eq_true] at hs
      rw [dedupGo, if_neg (by rw [hs]; simp), List.mem_cons]
      by_cases hu : h.url = g.url
      · rw [List.find?_cons_of_pos _ (by simp [hu])]
        constructor
        · rintro (rfl | hmem)
          · exact ⟨by rw [← hu]; exact hs, rfl⟩
          · exfalso
            have hc := ((ih _).mp hmem).1
            rw [List.contains_cons, ← hu] at hc
            simp at hc
        · rintro ⟨hc, heq⟩
          exact Or.inl (Option.some.inj heq).symm
      · rw [List.find?_cons_of_neg _ (by simp [hu])]
        have hcons : (h.url :: seen).contains g.url = seen.contains g.url := by
          rw [List.contains_cons]
          have : (g.url == h.url) = false := beq_eq_false_iff_ne.mpr (Ne.symm hu)
          rw [this, Bool.false_or]
        constructor
        · rintro (rfl | hmem)
          · exact absurd rfl hu
          · have := (ih _).mp hmem
            rw [hcons] at this
            exact this
        · rintro ⟨hc, hfind⟩
          exact Or.inr ((ih _).mpr ⟨by rw [hcons]; exact hc, hfind⟩)

theorem mem_dedupByUrl (l : List FetchedGrant) (g : FetchedGrant) :
    g ∈ dedupByUrl l ↔ l.find? (fun x => x.url == g.url) = some g := by
  unfold dedupByUrl
  rw [mem_dedupGo]
  simp [List.contains]

/-- C4: after global aggregation in source-processing order (CANPAN, then the
RSS feed, then the listing page), exactly one record survives deduplication
per URL, namely the first occurrence in that order — so a URL present in the
earliest-processed source keeps that source's record — and every record whose
URL no other record shares is kept. -/
theorem dedup_earliest_source (canpan rss listing : List FetchedGrant) :
    (∀ g ∈ canpan ++ rss ++ listing,
      ∃! h, h ∈ dedupByUrl (canpan ++ rss ++ listing) ∧ h.url = g.url) ∧
    (∀ h ∈ dedupByUrl (canpan ++ rss ++ listing),
      (canpan ++ rss ++ listing).find? (fun x => x.url == h.url) = some h) ∧
    (∀ h ∈ dedupByUrl (canpan ++ rss ++ listing),
      (∃ x ∈ canpan, x.url = h.url) → h ∈ canpan) ∧
    (∀ g ∈ canpan ++ rss ++ listing,
      (∀ x ∈ canpan ++ rss ++ listing, x.url = g.url → x = g) →
        g ∈ dedupByUrl (canpan ++ rss ++ listing)) := by
  refine ⟨?_, ?_, ?_, ?_⟩
  · intro g hg
    have hsome : ((canpan ++ rss ++ listing).find?
        (fun x => x.url == g.url)).isSome = true :=
      List.find?_isSome.mpr ⟨g, hg, by simp⟩
    obtain ⟨w, hw⟩ := Option.isSome_iff_exists.mp hsome
    have hwu : w.url = g.url := by simpa using List.find?_some hw
    refine ⟨w, ⟨?_, hwu⟩, ?_⟩
    · rw [mem_dedupByUrl, hwu]
      exact hw
    · rintro y ⟨hy, hyu⟩
      rw [mem_dedupByUrl, hyu] at hy
      exact Option.some.inj (hy.symm.trans hw)
  · intro h hd
    exact (mem_dedupByUrl _ _).mp hd
  · rintro h hd ⟨x, hx, hxu⟩
    have hfind := (mem_dedupByUrl _ _).mp hd
    have hcs : (canpan.find? (fun y => y.url == h.url)).isSome = true :=
      List.find?_isSome.mpr ⟨x, hx, by simp [hxu]⟩
    obtain ⟨w, hw⟩ := Option.isSome_iff_exists.mp hcs
    rw [List.find?_append, List.find?_append, hw] at hfind
    simp only [Option.or] at hfind
    have hwh : w = h := Option.some.inj hfind
    exact hwh ▸ List.mem_of_find?_eq_some hw
  · intro g hg huniq
    rw [mem_dedupByUrl]
    have hsome : ((canpan ++ rss ++ listing).find?
        (fun x => x.url == g.url)).isSome = true :=
      List.find?_isSome.mpr ⟨g, hg, by simp⟩
    obtain ⟨w, hw⟩ := Option.isSome_iff_exists.mp hsome
    have hwu : w.url = g.url := by simpa using List.find?_some hw
    have hwg : w = g := huniq w (List.mem_of_find?_eq_some hw) hwu
    rw [hwg] at hw
    exact hw

/-- C2 (amended): a record is excluded by the filter chain iff its score is
below the threshold, or its region is ineligible, or its name+categories text
contains an exclude keyword, or its amount is known, nonzero and below the
floor, or its deadline is known and strictly before the current date.  (The
code's Python truthiness test lets a known zero amount through.) -/
theorem filter_chain_amended (cfg : Config) (today : DateYMD)
    (existingIds : List String) (g : FetchedGrant) :
    processGrant cfg today existingIds g = none ↔
      ((score_grant cfg.highKw cfg.lowKw g).1 < cfg.scoreThreshold ∨
       (check_region cfg.regionExcl g.full_text).1 = false ∨
       (∃ kw ∈ cfg.exclKw, hasSubS (g.name ++ g.categories) kw = true) ∨
       (∃ v, g.amount_value = some v ∧ 0 < v ∧ v < cfg.amountThreshold) ∨
       (∃ d, g.deadline = some d ∧ dateLt d today = true)) := by
  rcases hav : g.amount_value with _ | v <;>
    rcases hdl : g.deadline with _ | d <;>
      simp only [processGrant, hav, hdl] <;>
        split_ifs <;>
          simp_all [List.any_eq_true, Nat.pos_iff_ne_zero]

/-- A record with a known zero amount, as the amount parser itself produces
on the text 0万円. -/
def zeroAmountGrant : FetchedGrant :=
  { id := "jfc_0000000000", name := "助成X", url := "https://example.org/x",
    source := "助成財団センター", organization := "", summary := "",
    categories := "", deadline := none, status := "要確認",
    amount_text := "0万円", amount_value := some 0, full_text := "0万円",
    found_date := ⟨2025, 10, 12⟩ }

/-- The configuration for the zero-amount scenario: amount floor 10000. -/
def zeroAmountCfg : Config :=
  { highKw := ["助成"], lowKw := [], exclKw := [], regionExcl := [],
    scoreThreshold := 0, amountThreshold := 10000 }

/-- C2 counterexample: the amount parser yields the known amount 0 for the
text 0万円; 0 is below the floor 10000, so the claim's predicate chain says
the record is excluded (`specExcluded` is true), yet the code keeps it: the
Python truthiness test `grant.get("amount_value") and ...` skips amount 0. -/
theorem filter_claim_counterexample :
    parse_amount "0万円".data = some 0 ∧
    specExcluded zeroAmountCfg ⟨2025, 10, 12⟩ zeroAmountGrant = true ∧
    (processGrant zeroAmountCfg ⟨2025, 10, 12⟩ [] zeroAmountGrant).isSome
      = true := by
  decide

theorem processGrant_shift (cfg : Config) (today : DateYMD) (ids : List String)
    (g : FetchedGrant) :
    processGrant cfg today ids g
      = (processGrant cfg today [] g).map
          (fun st => { st with is_new := !(ids.contains st.id) }) := by
  simp only [processGrant]
  split_ifs <;> simp [List.contains]

theorem processGrant_some (cfg : Config) (today : DateYMD) (ids : List String)
    (g : FetchedGrant) (st : StoredGrant)
    (h : processGrant cfg today ids g = some st) :
    st.id = g.id ∧ st.found_date = g.found_date ∧ st.name = g.name ∧
    st.categories = g.categories ∧
    st.relevance_score = (score_grant cfg.highKw cfg.lowKw g).1 ∧
    st.is_new = !(ids.contains g.id) ∧
    cfg.exclKw.any (fun kw => hasSubS (g.name ++ g.categories) kw) = false := by
  simp only [processGrant] at h
  split_ifs at h with h1 h2 h3 h4
  obtain rfl := Option.some.inj h
  refine ⟨rfl, rfl, rfl, rfl, rfl, rfl, ?_⟩
  rw [Bool.not_eq_true] at h3
  exact h3

theorem mem_insertByScore (g x : StoredGrant) (l : List StoredGrant) :
    x ∈ insertByScore g l ↔ x = g ∨ x ∈ l := by
  induction l with
  | nil => simp [insertByScore]
  | cons h t ih =>
    simp only [insertByScore]
    split_ifs
    · simp [List.mem_cons]
    · rw [List.mem_cons, ih, List.mem_cons]
      tauto

theorem mem_foldl_insert (l acc : List StoredGrant) (x : StoredGrant) :
    x ∈ l.foldl (fun a g => insertByScore g a) acc ↔ x ∈ acc ∨ x ∈ l := by
  induction l generalizing acc with
  | nil => simp
  | cons g t ih =>
    rw [List.foldl_cons, ih, mem_insertByScore, List.mem_cons]
    tauto

theorem mem_sortByScoreDesc (l : List StoredGrant) (x : StoredGrant) :
    x ∈ sortByScoreDesc l ↔ x ∈ l := by
  unfold sortByScoreDesc
  rw [mem_foldl_insert]
  simp

theorem run_empty_all_new (cfg : Config) (today : DateYMD) (ts : String)
    (scraped : List RawGrant) :
    ∀ g ∈ (run cfg today ts scraped emptyCatalog).grants, g.is_new = true := by
  intro g hg
  simp only [run, emptyCatalog, List.map_nil] at hg
  rw [mem_sortByScoreDesc] at hg
  obtain ⟨u, hu, hpu⟩ := List.mem_filterMap.mp hg
  have h := (processGrant_some _ _ _ _ _ hpu).2.2.2.2.2.1
  simpa [List.contains] using h

theorem filterMap_processGrant (cfg : Config) (today : DateYMD)
    (ids : List String) (l : List FetchedGrant) :
    l.filterMap (processGrant cfg today ids)
      = (l.filterMap (processGrant cfg today [])).map
          (fun st => { st with is_new := !(ids.contains st.id) }) := by
  induction l with
  | nil => rfl
  | cons g t ih =>
    rw [List.filterMap_cons, List.filterMap_cons,
      processGrant_shift cfg today ids g]
    cases hp : processGrant cfg today [] g with
    | none => simpa using ih
    | some st => simp [ih]

theorem insertByScore_map (f : StoredGrant → StoredGrant)
    (hf : ∀ g, (f g).relevance_score = g.relevance_score) (g : StoredGrant)
    (l : List StoredGrant) :
    insertByScore (f g) (l.map f) = (insertByScore g l).map f := by
  induction l with
  | nil => rfl
  | cons h t ih =>
    simp only [List.map_cons, insertByScore, hf]
    split_ifs <;> simp [ih]

theorem sortByScoreDesc_map (f : StoredGrant → StoredGrant)
    (hf : ∀ g, (f g).relevance_score = g.relevance_score)
    (l : List StoredGrant) :
    sortByScoreDesc (l.map f) = (sortByScoreDesc l).map f := by
  have haux : ∀ (l acc : List StoredGrant),
      (l.map f).foldl (fun a g => insertByScore g a) (acc.map f)
        = (l.foldl (fun a g => insertByScore g a) acc).map f := by
    intro l
    induction l with
    | nil => intro acc; rfl
    | cons g t ih =>
      intro acc
      rw [List.map_cons, List.foldl_cons, List.foldl_cons,
        insertByScore_map f hf g acc]
      exact ih (insertByScore g acc)
  exact haux l []

theorem map_update_contains (L : List StoredGrant) (st : StoredGrant)
    (hst : st ∈ L) (b : StoredGrant → Bool) :
    (L.map ((fun (g : StoredGrant) => g.id) ∘
      (fun (g : StoredGrant) => { g with is_new := b g }))).contains st.id
      = true :=
  List.elem_iff.mpr (List.mem_map.mpr ⟨st, hst, rfl⟩)

/-- C1: with a deterministic fetch capability (the same scraped list) and a
fixed current date, a second run reproduces the first run's catalog except
for its timestamp: the persisted grants agree field for field apart from
`is_new`, which is false throughout the second run, and is true throughout a
first run made with no prior catalog. -/
theorem run_idempotent (cfg : Config) (today : DateYMD) (ts1 ts2 : String)
    (scraped : List RawGrant) (existing : Catalog) :
    ((run cfg today ts2 scraped (run cfg today ts1 scraped existing)).grants
      = ((run cfg today ts1 scraped existing).grants).map
          (fun g => { g with is_new := false })) ∧
    ∀ g ∈ (run cfg today ts1 scraped emptyCatalog).grants, g.is_new = true := by
  refine ⟨?_, run_empty_all_new cfg today ts1 scraped⟩
  have hf : ∀ (ids : List String) (g : StoredGrant),
      ((fun (st : StoredGrant) => { st with is_new := !(ids.contains st.id) })
          g).relevance_score
        = g.relevance_score := fun _ _ => rfl
  have hrun : ∀ (ts : String) (ex : Catalog),
      (run cfg today ts scraped ex).grants
        = (sortByScoreDesc ((dedupByUrl (scraped.map (stamp today))).filterMap
            (processGrant cfg today []))).map
            (fun st => { st with
              is_new := !((ex.grants.map (fun g => g.id)).contains st.id) }) := by
    intro ts ex
    simp only [run]
    rw [filterMap_processGrant, sortByScoreDesc_map _ (hf _)]
  simp only [hrun, List.map_map]
  apply List.map_congr_left
  intro st hst
  simp only [Function.comp_apply]
  rw [map_update_contains _ st hst]
  rfl

/-- C7 counterexample: the same record (same id), collected again on a later
day, carries the later day as `found_date`: the field is re-stamped by each
run, not preserved from first observation. -/
theorem found_date_counterexample :
    ((run simpleCfg dayOne "t1" [simpleRaw] emptyCatalog).grants.map
        (fun g => (g.id, g.found_date, g.is_new))
      = [("canpan_215fe0fdd1", dayOne, true)]) ∧
    ((run simpleCfg dayTwo "t2" [simpleRaw]
        (run simpleCfg dayOne "t1" [simpleRaw] emptyCatalog)).grants.map
        (fun g => (g.id, g.found_date, g.is_new))
      = [("canpan_215fe0fdd1", dayTwo, false)]) ∧
    dayTwo ≠ dayOne := by decide

/-- C7 (amended): `found_date` is the date of the run that produced the
record: every run re-stamps every collected record with the current date, so
a record whose id was seen in an earlier run still carries the current run's
date. -/
theorem found_date_current_run (cfg : Config) (today : DateYMD) (ts : String)
    (scraped : List RawGrant) (existing : Catalog) :
    ∀ g ∈ (run cfg today ts scraped existing).grants, g.found_date = today := by
  intro g hg
  simp only [run] at hg
  rw [mem_sortByScoreDesc] at hg
  obtain ⟨u, hu, hpu⟩ := List.mem_filterMap.mp hg
  have hfd := (processGrant_some _ _ _ _ _ hpu).2.1
  have humem : u ∈ scraped.map (stamp today) :=
    List.mem_of_find?_eq_some ((mem_dedupByUrl _ _).mp hu)
  obtain ⟨r, _, rfl⟩ := List.mem_map.mp humem
  exact hfd

/-- C7 amended-claim witness: in the concrete one-record run the surviving
record's found date is the run date. -/
theorem found_date_current_run_witness :
    ((run simpleCfg dayOne "t1" [simpleRaw] emptyCatalog).grants.getD 0
        default).found_date = dayOne :=
  found_date_current_run simpleCfg dayOne "t1" [simpleRaw] emptyCatalog
    ((run simpleCfg dayOne "t1" [simpleRaw] emptyCatalog).grants.getD 0 default)
    (by decide)

/-- C8: loading the prior catalog never aborts the run: an absent, unreadable
or malformed state loads as the empty catalog, and a run from any of those
outcomes marks every surviving record as new. -/
theorem load_existing_recovers (cfg : Config) (today : DateYMD) (ts : String)
    (scraped : List RawGrant) :
    load_existing .absent = emptyCatalog ∧
    load_existing .unreadable = emptyCatalog ∧
    load_existing .malformed = emptyCatalog ∧
    ∀ o : LoadOutcome, (o = .absent ∨ o = .unreadable ∨ o = .malformed) →
      ∀ g ∈ (run cfg today ts scraped (load_existing o)).grants,
        g.is_new = true := by
  refine ⟨rfl, rfl, rfl, ?_⟩
  rintro o (rfl | rfl | rfl) <;> exact run_empty_all_new cfg today ts scraped

/-- A stored grant whose name contains the exclude keyword 宗教. -/
def excludedStored : StoredGrant :=
  { id := "x1", name := "宗教法人向け助成", url := "https://example.org/r",
    source := "CANPAN", organization := "", summary := "", categories := "",
    deadline := none, status := "要確認", amount_text := "",
    amount_value := none, found_date := ⟨2025, 10, 12⟩, region := "指定なし",
    relevance_score := 3, matched_keywords := [], is_new := false }

/-- A persisted catalog containing `excludedStored`. -/
def excludedCatalog : Catalog :=
  { last_updated := some "2025-10-12 00:00:00", grants := [excludedStored] }

/-- C9 counterexample: on a persisted catalog holding a grant whose name
contains a configured exclude keyword, the dashboard's working set drops the
grant, so it does not equal the stored grant set. -/
theorem dashboard_counterexample :
    dashboard_grants ["宗教"] excludedCatalog = [] ∧
    excludedCatalog.grants ≠ [] := by decide

/-- C9 (amended): the dashboard works from the stored grants with the
exclude-keyword filter re-applied to name+categories — it recomputes no
scores, deduplication or other eligibility — and on any catalog the pipeline
itself produced under the same exclude configuration the re-applied filter
removes nothing, so the working set equals the stored set there. -/
theorem dashboard_grants_amended (exclKw : List String) (c : Catalog) :
    (dashboard_grants exclKw c
      = c.grants.filter
          (fun g =>
            !(exclKw.any (fun kw => hasSubS (g.name ++ g.categories) kw)))) ∧
    ∀ (cfg : Config) (today : DateYMD) (ts : String) (scraped : List RawGrant)
      (existing : Catalog),
      dashboard_grants cfg.exclKw (run cfg today ts scraped existing)
        = (run cfg today ts scraped existing).grants := by
  refine ⟨rfl, ?_⟩
  intro cfg today ts scraped existing
  unfold dashboard_grants apply_exclude_filter
  apply List.filter_eq_self.mpr
  intro g hg
  simp only [run] at hg
  rw [mem_sortByScoreDesc] at hg
  obtain ⟨u, hu, hpu⟩ := List.mem_filterMap.mp hg
  have h := processGrant_some _ _ _ _ _ hpu
  rw [h.2.2.1, h.2.2.2.1, h.2.2.2.2.2.2]
  rfl

end HelpMiso
